import Mathlib

/-!
Shallow embedding of the recurring-obligation materialization engine of the
`tracking_despesas` repository (source files `expense_cli.py` and `api.py`),
together with proofs about the specification's claims.

Embedding conventions:

* Python `datetime.date` values are embedded as the `Date` structure below;
  comparison of dates is lexicographic on (year, month, day), exactly as in
  Python.  Date strings in the SQLite store are zero-padded ISO dates whose
  string ordering agrees with date ordering, so SQL comparisons and `MAX`
  over date columns are embedded as comparisons and maximum over `Date`.
* Month-key strings "YYYY-MM" are embedded as the `Ym` structure
  (year, month); a valid key string determines and is determined by the pair.
* Python floor division `//` and modulus `%` on integers coincide with Lean's
  `Int` division and modulus for positive divisors, the only divisors that
  occur in the source (`12`, `4`, `100`, `400`).
* Monetary amounts (Python floats) are embedded as exact rationals `ℚ`, and
  Python's `round(x, ndigits)` (round-half-to-even) as exact half-to-even
  rounding at `ndigits` decimal digits; this is the idealization of the
  source's float arithmetic at the currency's 2-decimal precision.
* SQLite tables are embedded as lists of rows in insertion order; Python
  dicts built by insertion are embedded as association lists in
  first-insertion key order.
-/

/-- A calendar date, embedding Python `datetime.date`. -/
structure Date where
  year : Int
  month : Int
  day : Int
  deriving DecidableEq, Repr

/-- Python date comparison `a <= b`: lexicographic on (year, month, day). -/
def Date.le (a b : Date) : Prop :=
  a.year < b.year ∨
    (a.year = b.year ∧ (a.month < b.month ∨ (a.month = b.month ∧ a.day ≤ b.day)))

/-- Python date comparison `a < b`: lexicographic on (year, month, day). -/
def Date.lt (a b : Date) : Prop :=
  a.year < b.year ∨
    (a.year = b.year ∧ (a.month < b.month ∨ (a.month = b.month ∧ a.day < b.day)))

instance (a b : Date) : Decidable (Date.le a b) := by
  unfold Date.le
  infer_instance

instance (a b : Date) : Decidable (Date.lt a b) := by
  unfold Date.lt
  infer_instance

/-- `calendar.isleap`, as consulted by `calendar.monthrange`. -/
def isLeap (y : Int) : Bool :=
  y % 4 == 0 && (y % 100 != 0 || y % 400 == 0)

/-- `calendar.monthrange(y, m)[1]`: the number of days of month `m` of year
`y` (for the months `1..12` that the source ever passes). -/
def daysInMonth (y m : Int) : Int :=
  if m = 2 then (if isLeap y then 29 else 28)
  else if m = 4 ∨ m = 6 ∨ m = 9 ∨ m = 11 then 30
  else 31

/-- A month key "YYYY-MM", embedded as its year and month. -/
structure Ym where
  year : Int
  month : Int
  deriving DecidableEq, Repr

/-- The month window returned by `parse_month` in both source files: the
first and the last calendar day of the month.  (`stop` is the field the
source calls `end`, a reserved word in Lean.) -/
structure MonthWindow where
  start : Date
  stop : Date
  deriving DecidableEq, Repr

/-- `parse_month` (both files): first and last day of a "YYYY-MM" month. -/
def parse_month (m : Ym) : MonthWindow :=
  ⟨⟨m.year, m.month, 1⟩, ⟨m.year, m.month, daysInMonth m.year m.month⟩⟩

/-- `shift_month` (identical in `expense_cli.py` and `api.py`): move a date
by `offset` months, clamping the day to the target month's last valid day. -/
def shift_month (base : Date) (offset : Int) : Date :=
  let k := base.month - 1 + offset
  let y := base.year + k / 12
  let m := k % 12 + 1
  ⟨y, m, min base.day (daysInMonth y m)⟩

/-- The linear index of a date's month on the month time line. -/
def monthIndex (d : Date) : Int :=
  d.year * 12 + (d.month - 1)

/-- The linear index of a month key on the month time line. -/
def ymIndex (m : Ym) : Int :=
  m.year * 12 + (m.month - 1)

/-- A structurally valid calendar date (what `datetime.date` accepts,
ignoring Python's year range limits, which the source never approaches). -/
def validDate (d : Date) : Prop :=
  1 ≤ d.month ∧ d.month ≤ 12 ∧ 1 ≤ d.day ∧ d.day ≤ daysInMonth d.year d.month

instance (d : Date) : Decidable (validDate d) := by
  unfold validDate
  infer_instance

/-- A row of the `subscriptions` table. -/
structure Subscription where
  id : Nat
  name : String
  amount : ℚ
  category : String
  frequency : String
  start_date : Date
  end_date : Option Date
  active : Bool
  deriving DecidableEq, Repr

/-- The end-date bound check shared verbatim by both due-date resolvers: a
subscription whose `end_date` is set and lies before the window start is not
due (a NULL / empty `end_date` is embedded as `none`). -/
def endBoundOk (sub : Subscription) (wstart : Date) : Bool :=
  match sub.end_date with
  | some e => !decide (Date.lt e wstart)
  | none => true

/-- `_subscription_due_on_month` from `api.py`: `start` and `stop` are the
month window bounds (`start`/`end` in the source). -/
def api_subscription_due_on_month (sub : Subscription) (start stop : Date) : Bool :=
  if Date.lt stop sub.start_date then false
  else if !endBoundOk sub start then false
  else if sub.frequency == "monthly" then true
  else if sub.frequency == "yearly" then
    let dueDay := min sub.start_date.day (daysInMonth start.year sub.start_date.month)
    let dueDate : Date := ⟨start.year, sub.start_date.month, dueDay⟩
    decide (Date.le start dueDate) && decide (Date.le dueDate stop)
  else false

/-- `subscription_due_on_month` from `expense_cli.py`: any non-"monthly"
frequency falls through to the yearly loop, which scans the candidate
anniversary years `month.start.year - 1 .. month.start.year + 1`. -/
def subscription_due_on_month (sub : Subscription) (month : MonthWindow) : Bool :=
  if Date.lt month.stop sub.start_date then false
  else if !endBoundOk sub month.start then false
  else if sub.frequency == "monthly" then true
  else
    [month.start.year - 1, month.start.year, month.start.year + 1].any fun y =>
      let dueDate : Date :=
        ⟨y, sub.start_date.month, min sub.start_date.day (daysInMonth y sub.start_date.month)⟩
      decide (Date.le month.start dueDate) && decide (Date.le dueDate month.stop)

/-- A row of the `expenses` table (the fields the claims depend on; the
installment linkage columns are not needed by any claim about this engine). -/
structure Expense where
  expense_date : Date
  amount : ℚ
  description : String
  category : String
  kind : String
  subscription_id : Option Nat
  deriving DecidableEq, Repr

/-- A row of the `incomes` table. -/
structure Income where
  income_date : Date
  amount : ℚ
  category : String
  deriving DecidableEq, Repr

/-- The database state the claims are about: the ledger tables in insertion
order.  `subscription_charges` rows are the charge markers, keyed by
(subscription id, charge month); in the global budget schema served by
`api.py` a `budgets` row is a (category, amount) pair. -/
structure Db where
  expenses : List Expense
  incomes : List Income
  subscriptions : List Subscription
  subscription_charges : List (Nat × Ym)
  budgets : List (String × ℚ)
  deriving DecidableEq, Repr

/-- The counts reported by the `/api/subscriptions/run` endpoint. -/
structure Report where
  eligible_subscriptions : Nat
  already_charged : Nat
  materialized : Nat
  deriving DecidableEq, Repr

/-- The ledger entry inserted for a subscription charge: dated to the first
day of the billing month, kind `subscription`, linked by subscription id. -/
def chargeExpense (m : Ym) (sub : Subscription) : Expense :=
  ⟨⟨m.year, m.month, 1⟩, sub.amount, "Subscription: " ++ sub.name, sub.category,
    "subscription", some sub.id⟩

/-- One iteration of the materialization loop of `run_subscriptions`
(`api.py`): skip subscriptions not due, count eligibility, gate on an
existing charge marker, and otherwise (unless a dry run) insert the ledger
entry and the charge marker. -/
def runStep (m : Ym) (dryRun : Bool) (acc : Report × Db) (sub : Subscription) : Report × Db :=
  let w := parse_month m
  if !api_subscription_due_on_month sub w.start w.stop then acc
  else
    let r := { acc.1 with eligible_subscriptions := acc.1.eligible_subscriptions + 1 }
    let cur := acc.2
    if (sub.id, m) ∈ cur.subscription_charges then
      ({ r with already_charged := r.already_charged + 1 }, cur)
    else if dryRun then
      ({ r with materialized := r.materialized + 1 }, cur)
    else
      ({ r with materialized := r.materialized + 1 },
        { cur with
          expenses := cur.expenses ++ [chargeExpense m sub],
          subscription_charges := cur.subscription_charges ++ [(sub.id, m)] })

/-- `run_subscriptions` from `api.py` (the materialization endpoint): fold
the loop body over the active subscriptions, starting from zero counts. -/
def run_subscriptions (db : Db) (m : Ym) (dryRun : Bool) : Report × Db :=
  (db.subscriptions.filter (fun s => s.active)).foldl (runStep m dryRun) (⟨0, 0, 0⟩, db)

/-- The Boolean "due in month `m`" test used by the materialization run. -/
def dueOn (m : Ym) (s : Subscription) : Bool :=
  api_subscription_due_on_month s (parse_month m).start (parse_month m).stop

/-- The materialization loop of `run_subscriptions` (`api.py`) under
interference from a concurrent writer, as described by the specification's
concurrency model: `concurrent` is the set of charge markers committed by
another invocation after this run's duplicate check read its snapshot.  An
insert of a marker already committed concurrently violates the UNIQUE
constraint of `subscription_charges`; the source has no handler for that
error, so the run aborts with it. -/
def runConc (m : Ym) (dryRun : Bool) (concurrent : List (Nat × Ym)) :
    List Subscription → Report × Db → Except String (Report × Db)
  | [], acc => Except.ok acc
  | sub :: rest, acc =>
    let w := parse_month m
    if !api_subscription_due_on_month sub w.start w.stop then
      runConc m dryRun concurrent rest acc
    else
      let r := { acc.1 with eligible_subscriptions := acc.1.eligible_subscriptions + 1 }
      let cur := acc.2
      if (sub.id, m) ∈ cur.subscription_charges then
        runConc m dryRun concurrent rest ({ r with already_charged := r.already_charged + 1 }, cur)
      else if dryRun then
        runConc m dryRun concurrent rest ({ r with materialized := r.materialized + 1 }, cur)
      else if (sub.id, m) ∈ concurrent then
        Except.error
          "UNIQUE constraint failed: subscription_charges.subscription_id, subscription_charges.charge_month"
      else
        runConc m dryRun concurrent rest
          ({ r with materialized := r.materialized + 1 },
            { cur with
              expenses := cur.expenses ++ [chargeExpense m sub],
              subscription_charges := cur.subscription_charges ++ [(sub.id, m)] })

/-- `run_subscriptions` under concurrent interference (see `runConc`). -/
def run_subscriptions_concurrent (db : Db) (m : Ym) (dryRun : Bool)
    (concurrent : List (Nat × Ym)) : Except String (Report × Db) :=
  runConc m dryRun concurrent (db.subscriptions.filter (fun s => s.active)) (⟨0, 0, 0⟩, db)

/-- Exact round-half-to-even to an integer: Python's `round(x)` on the exact
value of `x`. -/
def rheInt (q : ℚ) : ℤ :=
  let f := ⌊q⌋
  let r := q - f
  if r < 1/2 then f
  else if 1/2 < r then f + 1
  else if f % 2 = 0 then f
  else f + 1

/-- Python's `round(x, ndigits)` at scale `s = 10 ^ ndigits`, on exact
rationals: round half to even at that decimal position. -/
def roundTo (s : ℤ) (q : ℚ) : ℚ :=
  (rheInt (q * s) : ℚ) / s

/-- The installment amount split of `add_installment` (`expense_cli.py`):
`each = round(total/count, 2)`, every installment gets `each`, and the last
one additionally absorbs `diff = round(total - each*count, 2)`.  A zero
`count` is unreachable in the source (the CLI passes a positive count and the
schema checks `installment_count > 0`). -/
def split (total : ℚ) (count : ℕ) : List ℚ :=
  if count = 0 then []
  else
    let each := roundTo 100 (total / count)
    let diff := roundTo 100 (total - each * count)
    List.replicate (count - 1) each ++ [each + diff]

/-- Fold step of a Python `defaultdict(float)` accumulation
`totals[cat] += amt` (insertion-ordered association list). -/
def bump (acc : List (String × ℚ)) (cat : String) (amt : ℚ) : List (String × ℚ) :=
  match acc with
  | [] => [(cat, amt)]
  | (c, v) :: rest => if c = cat then (c, v + amt) :: rest else (c, v) :: bump rest cat amt

/-- `category_totals` (`expense_cli.py`), also the `actual` accumulation in
the `budgets` endpoint of `api.py`: sum expense amounts per category. -/
def category_totals (rows : List Expense) : List (String × ℚ) :=
  rows.foldl (fun acc r => bump acc r.category r.amount) []

/-- Python `dict.get(cat, d)` on an accumulated totals dict. -/
def lookupD (l : List (String × ℚ)) (cat : String) (d : ℚ) : ℚ :=
  match l with
  | [] => d
  | (c, v) :: rest => if c = cat then v else lookupD rest cat d

/-- Python `dict.get(cat)` on an accumulated totals dict (`None` ↦ `none`). -/
def lookupOpt (l : List (String × ℚ)) (cat : String) : Option ℚ :=
  match l with
  | [] => none
  | (c, v) :: rest => if c = cat then some v else lookupOpt rest cat

/-- The SQL date-range test `col >= start AND col <= end` of the month
queries (string comparison of zero-padded ISO dates = date comparison). -/
def inWindow (w : MonthWindow) (d : Date) : Bool :=
  decide (Date.le w.start d) && decide (Date.le d w.stop)

/-- The expense rows of a month: `month_expenses` (`expense_cli.py`) and the
expense queries of `api.py`, restricted to the month window. -/
def monthExpenseRows (db : Db) (key : Ym) : List Expense :=
  db.expenses.filter (fun e => inWindow (parse_month key) e.expense_date)

/-- The income rows of a month. -/
def monthIncomeRows (db : Db) (key : Ym) : List Income :=
  db.incomes.filter (fun i => inWindow (parse_month key) i.income_date)

/-- One element of the list returned by the `budgets` endpoint of `api.py`. -/
structure BudgetRow where
  category : String
  budgeted : ℚ
  spent : ℚ
  remaining : ℚ
  pct : ℚ
  deriving DecidableEq, Repr

/-- The `budgets` endpoint of `api.py`: per budgeted category, the planned
amount, the month's spend, the remainder and the capped percentage
(`round(min(spent/budgeted*100, 100) if budgeted > 0 else 0, 1)`), sorted by
percentage descending. -/
def budgets_endpoint (db : Db) (m : Ym) : List BudgetRow :=
  let actual := category_totals (monthExpenseRows db m)
  let result := db.budgets.map (fun b =>
    let budgeted := b.2
    let spent := lookupD actual b.1 0
    { category := b.1, budgeted := budgeted, spent := spent,
      remaining := budgeted - spent,
      pct := roundTo 10 (if budgeted > 0 then min (spent / budgeted * 100) 100 else 0)
      : BudgetRow })
  List.insertionSort (fun x y => y.pct ≤ x.pct) result

/-- The claim's description of a category's spend in a month: the sum of the
amounts of the month's expense rows of that category. -/
def spentOn (db : Db) (m : Ym) (cat : String) : ℚ :=
  (((monthExpenseRows db m).filter (fun e => e.category = cat)).map (fun e => e.amount)).sum

/-- One row of the `/api/trends` response. -/
structure TrendRow where
  month : Ym
  expenses : ℚ
  income : ℚ
  net : ℚ
  deriving DecidableEq, Repr

/-- All dates carrying ledger data: expense dates and income dates. -/
def dataDates (db : Db) : List Date :=
  db.expenses.map (fun e => e.expense_date) ++ db.incomes.map (fun i => i.income_date)

/-- The binary maximum of two dates. -/
def dateMax (a b : Date) : Date :=
  if Date.le a b then b else a

/-- The SQL `MAX` over all expense and income dates of `latest_data_month`
(`api.py`): `none` when both tables are empty. -/
def latestDate (db : Db) : Option Date :=
  match dataDates db with
  | [] => none
  | d :: rest => some (rest.foldl dateMax d)

/-- `latest_data_month` (`api.py`): the month of the latest stored date, or
the current calendar month (`today`, the wall clock) if the store is empty. -/
def latest_data_month (db : Db) (today : Ym) : Ym :=
  match latestDate db with
  | none => today
  | some d => ⟨d.year, d.month⟩

/-- One month's summary as computed inside the `trends` endpoint of
`api.py`: expense, income and net totals of the month, rounded to cents. -/
def trendRow (db : Db) (key : Ym) : TrendRow :=
  let exp := ((monthExpenseRows db key).map (fun e => e.amount)).sum
  let inc := ((monthIncomeRows db key).map (fun i => i.amount)).sum
  ⟨key, roundTo 100 exp, roundTo 100 inc, roundTo 100 (inc - exp)⟩

/-- The `trends` endpoint of `api.py`: anchored at the first day of
`latest_data_month`, one summary per month for `for i in
reversed(range(months))`, each at offset `-i` months from the anchor. -/
def trends (db : Db) (months : Nat) (today : Ym) : List TrendRow :=
  let anchor := latest_data_month db today
  let anchorDate : Date := ⟨anchor.year, anchor.month, 1⟩
  (List.range months).reverse.map (fun (i : ℕ) =>
    let mStart := shift_month anchorDate (-(i : Int))
    trendRow db ⟨mStart.year, mStart.month⟩)

/-- One month's line of `report_trends` (`expense_cli.py`): the month's raw
expense, income and net totals (summed, then printed without rounding). -/
def cliTrendRow (db : Db) (key : Ym) : TrendRow :=
  let exp := ((monthExpenseRows db key).map (fun e => e.amount)).sum
  let inc := ((monthIncomeRows db key).map (fun i => i.amount)).sum
  ⟨key, exp, inc, inc - exp⟩

/-- `report_trends` (`expense_cli.py`): anchored at the first day of the
current calendar month (`date.today().replace(day=1)`), one summary per
month for `i in reversed(range(args.months))`, each at offset `-i` months
from the current month — regardless of what data the store holds. -/
def report_trends (db : Db) (months : Nat) (today : Date) : List TrendRow :=
  let todayFirst : Date := ⟨today.year, today.month, 1⟩
  (List.range months).reverse.map (fun (i : ℕ) =>
    let mStart := shift_month todayFirst (-(i : Int))
    cliTrendRow db ⟨mStart.year, mStart.month⟩)

/-- `last_n_month_keys` (`expense_cli.py`): the keys of the `n` months before
the given month window, most recent first (`shift_month(month.start, -i)` for
`i in range(1, n+1)`). -/
def last_n_month_keys (month : MonthWindow) (n : Nat) : List Ym :=
  (List.range n).map (fun (i : ℕ) =>
    let d := shift_month month.start (-((i : Int) + 1))
    ⟨d.year, d.month⟩)

/-- Fold step of the `defaultdict(list)` accumulation
`prev_totals[cat].append(amount)` in `report_savings`. -/
def bumpHist (acc : List (String × List ℚ)) (cat : String) (amt : ℚ) : List (String × List ℚ) :=
  match acc with
  | [] => [(cat, [amt])]
  | (c, v) :: rest => if c = cat then (c, v ++ [amt]) :: rest else (c, v) :: bumpHist rest cat amt

/-- `prev_totals.get(cat)` (`None` and the never-stored empty list both embed
as `[]`, and both make the loop skip the category). -/
def lookupHist (l : List (String × List ℚ)) (cat : String) : List ℚ :=
  match l with
  | [] => []
  | (c, v) :: rest => if c = cat then v else lookupHist rest cat

/-- The `prev_totals` accumulation of `report_savings` (`expense_cli.py`):
for each of the three previous months, append each category's month total to
that category's history. -/
def prevTotals (db : Db) (month : MonthWindow) : List (String × List ℚ) :=
  (last_n_month_keys month 3).foldl
    (fun acc mk => (category_totals (monthExpenseRows db mk)).foldl
      (fun a p => bumpHist a p.1 p.2) acc) []

/-- One flagged spike of `report_savings`: the tuple
`(cat, current, avg, current - avg)` appended by the source. -/
structure SpikeRow where
  category : String
  current : ℚ
  avg : ℚ
  diff : ℚ
  deriving DecidableEq, Repr

/-- The category-spike detection of `report_savings` (`expense_cli.py`): for
each current-month category total, take the history over the three previous
months (only months in which the category had expense rows contribute), skip
empty histories and non-positive averages, flag when the current total
exceeds `avg * 1.3`, and sort by `current - avg` descending.  The float
constant `1.3` is embedded as the exact rational `13/10`. -/
def report_savings_spikes (db : Db) (m : Ym) : List SpikeRow :=
  let totals := category_totals (monthExpenseRows db m)
  let prev := prevTotals db (parse_month m)
  let spikes := totals.filterMap (fun p =>
    let hist := lookupHist prev p.1
    if hist = [] then none
    else
      let avg := hist.sum / (hist.length : ℚ)
      if avg ≤ 0 then none
      else if p.2 > avg * (13/10) then some ⟨p.1, p.2, avg, p.2 - avg⟩
      else none)
  List.insertionSort (fun x y => y.diff ≤ x.diff) spikes

/-- The claim-side direct form of a category's trailing history: the month
totals of the three previous months, restricted to the months in which the
category had expense rows. -/
def histOf (db : Db) (month : MonthWindow) (cat : String) : List ℚ :=
  (last_n_month_keys month 3).filterMap
    (fun mk => lookupOpt (category_totals (monthExpenseRows db mk)) cat)

instance : IsTotal BudgetRow (fun x y => y.pct ≤ x.pct) :=
  ⟨fun a b => le_total b.pct a.pct⟩

instance : IsTrans BudgetRow (fun x y => y.pct ≤ x.pct) :=
  ⟨fun _ _ _ h1 h2 => le_trans h2 h1⟩

instance : IsTotal SpikeRow (fun x y => y.diff ≤ x.diff) :=
  ⟨fun a b => le_total b.diff a.diff⟩

instance : IsTrans SpikeRow (fun x y => y.diff ≤ x.diff) :=
  ⟨fun _ _ _ h1 h2 => le_trans h2 h1⟩

/-- The yearly example subscription of the claims: started 2023-02-28. -/
def exampleYearlySub : Subscription :=
  ⟨1, "Annual plan", 120, "Subscriptions", "yearly", ⟨2023, 2, 28⟩, none, true⟩

/-- A subscription with a frequency outside {monthly, yearly}; the two
resolvers disagree on it. -/
def weeklySub : Subscription :=
  ⟨2, "Gym pass", 30, "Health", "weekly", ⟨2024, 1, 15⟩, none, true⟩

/-- Store with one active monthly subscription due in 2024-01. -/
def dbC5 : Db :=
  ⟨[], [], [⟨1, "Netflix", 2990/100, "Streaming", "monthly", ⟨2024, 1, 1⟩, none, true⟩], [], []⟩

/-- Store with a budget of 3 for category "A" and a spend of 1 in 2024-01. -/
def dbPctThird : Db :=
  ⟨[⟨⟨2024, 1, 10⟩, 1, "x", "A", "one_off", none⟩], [], [], [], [("A", 3)]⟩

/-- Store with a budget of 0 for category "A" and a spend of 50 in 2024-01. -/
def dbPctZero : Db :=
  ⟨[⟨⟨2024, 1, 10⟩, 50, "x", "A", "one_off", none⟩], [], [], [], [("A", 0)]⟩

/-- Store with a budget of 100 for category "A" and a spend of 150. -/
def dbPctCap : Db :=
  ⟨[⟨⟨2024, 1, 10⟩, 150, "x", "A", "one_off", none⟩], [], [], [], [("A", 100)]⟩

/-- Store whose category "A" spent 100 in 2024-03 and 90 in 2024-02, with no
expenses in 2024-01 and 2023-12. -/
def dbC8 : Db :=
  ⟨[⟨⟨2024, 3, 5⟩, 100, "x", "A", "one_off", none⟩,
    ⟨⟨2024, 2, 10⟩, 90, "y", "A", "one_off", none⟩], [], [], [], []⟩

/-- Store with one expense in 2024-03 and one income in 2024-01. -/
def dbTrend : Db :=
  ⟨[⟨⟨2024, 3, 15⟩, 5, "x", "A", "one_off", none⟩],
    [⟨⟨2024, 1, 10⟩, 7, "Salary"⟩], [], [], []⟩

theorem daysInMonth_bounds (y m : Int) : 28 ≤ daysInMonth y m ∧ daysInMonth y m ≤ 31 := by
  unfold daysInMonth
  split
  · split <;> omega
  · split <;> omega

theorem shift_month_monthIndex (d : Date) (off : Int) :
    monthIndex (shift_month d off) = monthIndex d + off := by
  simp only [shift_month, monthIndex]
  omega

theorem shift_month_day (d : Date) (off : Int) :
    (shift_month d off).day
      = min d.day (daysInMonth (shift_month d off).year (shift_month d off).month) := by
  simp only [shift_month]

theorem shift_month_valid (d : Date) (off : Int) (h : validDate d) :
    validDate (shift_month d off) := by
  obtain ⟨h1, h2, h3, h4⟩ := h
  have hb := daysInMonth_bounds (d.year + (d.month - 1 + off) / 12) ((d.month - 1 + off) % 12 + 1)
  simp only [validDate, shift_month]
  refine ⟨by omega, by omega, ?_, ?_⟩
  · rw [le_min_iff]
    omega
  · exact min_le_right _ _

/-- C4: `shift_month` moves a valid date by `offset` months (the month index
moves by exactly `offset`), keeps the day except for clamping it to the last
valid day of the target month, and returns a valid date; in particular
2024-01-31 shifted by one month is 2024-02-29 and 2023-01-31 shifted by one
month is 2023-02-28. -/
theorem shift_month_spec (d : Date) (off : Int) (h : validDate d) :
    monthIndex (shift_month d off) = monthIndex d + off ∧
    (shift_month d off).day
      = min d.day (daysInMonth (shift_month d off).year (shift_month d off).month) ∧
    validDate (shift_month d off) ∧
    shift_month ⟨2024, 1, 31⟩ 1 = ⟨2024, 2, 29⟩ ∧
    shift_month ⟨2023, 1, 31⟩ 1 = ⟨2023, 2, 28⟩ :=
  ⟨shift_month_monthIndex d off, shift_month_day d off, shift_month_valid d off h,
    by decide, by decide⟩

/-- Witness for `shift_month_spec` at the date 2024-01-31 and offset 1. -/
theorem shift_month_spec_witness :
    validDate ⟨2024, 1, 31⟩ ∧
    (monthIndex (shift_month ⟨2024, 1, 31⟩ 1) = monthIndex ⟨2024, 1, 31⟩ + 1 ∧
     (shift_month ⟨2024, 1, 31⟩ 1).day
       = min (Date.day ⟨2024, 1, 31⟩)
           (daysInMonth (shift_month ⟨2024, 1, 31⟩ 1).year (shift_month ⟨2024, 1, 31⟩ 1).month) ∧
     validDate (shift_month ⟨2024, 1, 31⟩ 1) ∧
     shift_month ⟨2024, 1, 31⟩ 1 = ⟨2024, 2, 29⟩ ∧
     shift_month ⟨2023, 1, 31⟩ 1 = ⟨2023, 2, 28⟩) :=
  ⟨by decide, shift_month_spec ⟨2024, 1, 31⟩ 1 (by decide)⟩

theorem Date.not_lt_iff (a b : Date) : ¬ Date.lt a b ↔ Date.le b a := by
  simp only [Date.lt, Date.le]
  omega

/-- C2: for a yearly subscription whose start/end bound checks pass on the
month window of `m`, the resolver returns true exactly when the anniversary
date — the start month in the window's year, with the day clamped to that
month's last day — lies inside the window; in particular a subscription
started 2023-02-28 is due in 2024-02 but not in 2024-03 nor in 2023-06. -/
theorem yearly_due_iff_anniversary_in_window (sub : Subscription) (m : Ym)
    (hf : sub.frequency = "yearly")
    (hs : Date.le sub.start_date (parse_month m).stop)
    (he : endBoundOk sub (parse_month m).start = true) :
    (api_subscription_due_on_month sub (parse_month m).start (parse_month m).stop = true ↔
      (Date.le (parse_month m).start
          ⟨m.year, sub.start_date.month,
            min sub.start_date.day (daysInMonth m.year sub.start_date.month)⟩ ∧
       Date.le
          ⟨m.year, sub.start_date.month,
            min sub.start_date.day (daysInMonth m.year sub.start_date.month)⟩
          (parse_month m).stop)) ∧
    api_subscription_due_on_month exampleYearlySub
      (parse_month ⟨2024, 2⟩).start (parse_month ⟨2024, 2⟩).stop = true ∧
    api_subscription_due_on_month exampleYearlySub
      (parse_month ⟨2024, 3⟩).start (parse_month ⟨2024, 3⟩).stop = false ∧
    api_subscription_due_on_month exampleYearlySub
      (parse_month ⟨2023, 6⟩).start (parse_month ⟨2023, 6⟩).stop = false := by
  refine ⟨?_, by decide, by decide, by decide⟩
  have h1 : ¬ Date.lt (parse_month m).stop sub.start_date := (Date.not_lt_iff _ _).mpr hs
  have h2 : (("yearly" : String) == "monthly") = false := by decide
  have h3 : (("yearly" : String) == "yearly") = true := by decide
  simp only [parse_month] at h1 he
  simp [api_subscription_due_on_month, parse_month, hf, h1, he, h2, h3,
    Bool.and_eq_true, decide_eq_true_eq]

/-- Witness for `yearly_due_iff_anniversary_in_window`: the example yearly
subscription and the month 2024-02. -/
theorem yearly_due_iff_anniversary_in_window_witness :
    (exampleYearlySub.frequency = "yearly" ∧
     Date.le exampleYearlySub.start_date (parse_month ⟨2024, 2⟩).stop ∧
     endBoundOk exampleYearlySub (parse_month ⟨2024, 2⟩).start = true) ∧
    ((api_subscription_due_on_month exampleYearlySub
        (parse_month ⟨2024, 2⟩).start (parse_month ⟨2024, 2⟩).stop = true ↔
      (Date.le (parse_month ⟨2024, 2⟩).start
          ⟨(Ym.mk 2024 2).year, exampleYearlySub.start_date.month,
            min exampleYearlySub.start_date.day
              (daysInMonth (Ym.mk 2024 2).year exampleYearlySub.start_date.month)⟩ ∧
       Date.le
          ⟨(Ym.mk 2024 2).year, exampleYearlySub.start_date.month,
            min exampleYearlySub.start_date.day
              (daysInMonth (Ym.mk 2024 2).year exampleYearlySub.start_date.month)⟩
          (parse_month ⟨2024, 2⟩).stop)) ∧
     api_subscription_due_on_month exampleYearlySub
       (parse_month ⟨2024, 2⟩).start (parse_month ⟨2024, 2⟩).stop = true ∧
     api_subscription_due_on_month exampleYearlySub
       (parse_month ⟨2024, 3⟩).start (parse_month ⟨2024, 3⟩).stop = false ∧
     api_subscription_due_on_month exampleYearlySub
       (parse_month ⟨2023, 6⟩).start (parse_month ⟨2023, 6⟩).stop = false) :=
  ⟨⟨by decide, by decide, by decide⟩,
    yearly_due_iff_anniversary_in_window exampleYearlySub ⟨2024, 2⟩
      (by decide) (by decide) (by decide)⟩

/-- C9 counterexample: on a subscription whose frequency is neither
"monthly" nor "yearly" (here "weekly"), the CLI resolver and the API
resolver disagree: the CLI falls through to the yearly scan and reports the
subscription due, while the API returns false. -/
theorem resolvers_disagree_on_unknown_frequency :
    subscription_due_on_month weeklySub (parse_month ⟨2024, 1⟩) = true ∧
    api_subscription_due_on_month weeklySub
      (parse_month ⟨2024, 1⟩).start (parse_month ⟨2024, 1⟩).stop = false := by
  decide

/-- C9 amended: on every subscription whose frequency is one of the two
values the schema admits ("monthly" or "yearly") the CLI resolver and the
API resolver agree for every month window, even though the CLI scans the
candidate anniversary years Y-1..Y+1 while the API checks only the window's
own year: candidates in other years can never fall inside a one-month
window. -/
theorem resolvers_agree (sub : Subscription) (m : Ym)
    (hf : sub.frequency = "monthly" ∨ sub.frequency = "yearly") :
    subscription_due_on_month sub (parse_month m) =
      api_subscription_due_on_month sub (parse_month m).start (parse_month m).stop := by
  by_cases h1 : Date.lt (parse_month m).stop sub.start_date
  · simp [subscription_due_on_month, api_subscription_due_on_month, h1]
  cases hE : endBoundOk sub (parse_month m).start with
  | false =>
    simp [subscription_due_on_month, api_subscription_due_on_month, h1, hE]
  | true =>
    rcases hf with hf | hf
    · have h4 : (("monthly" : String) == "monthly") = true := by decide
      simp [subscription_due_on_month, api_subscription_due_on_month, h1, hE, hf, h4]
    · have h2 : (("yearly" : String) == "monthly") = false := by decide
      have h3 : (("yearly" : String) == "yearly") = true := by decide
      simp only [parse_month] at h1 hE
      simp [subscription_due_on_month, api_subscription_due_on_month, parse_month,
        h1, hE, hf, h2, h3]
      have e1 : decide (Date.le ⟨m.year, m.month, 1⟩
          ⟨m.year - 1, sub.start_date.month,
            min sub.start_date.day (daysInMonth (m.year - 1) sub.start_date.month)⟩) = false := by
        apply decide_eq_false
        intro hle
        simp only [Date.le] at hle
        rcases hle with h | ⟨h, -⟩ <;> omega
      have e3 : decide (Date.le
          (⟨m.year + 1, sub.start_date.month,
            min sub.start_date.day (daysInMonth (m.year + 1) sub.start_date.month)⟩ : Date)
          ⟨m.year, m.month, daysInMonth m.year m.month⟩) = false := by
        apply decide_eq_false
        intro hle
        simp only [Date.le] at hle
        rcases hle with h | ⟨h, -⟩ <;> omega
      rw [e1, e3]
      simp

/-- Witness for `resolvers_agree`: the yearly example subscription and the
month 2024-02. -/
theorem resolvers_agree_witness :
    (exampleYearlySub.frequency = "monthly" ∨ exampleYearlySub.frequency = "yearly") ∧
    subscription_due_on_month exampleYearlySub (parse_month ⟨2024, 2⟩) =
      api_subscription_due_on_month exampleYearlySub
        (parse_month ⟨2024, 2⟩).start (parse_month ⟨2024, 2⟩).stop :=
  ⟨Or.inr (by decide), resolvers_agree exampleYearlySub ⟨2024, 2⟩ (Or.inr (by decide))⟩

theorem runFold_subscriptions (m : Ym) (dry : Bool) (l : List Subscription)
    (acc : Report × Db) :
    ((l.foldl (runStep m dry) acc).2).subscriptions = acc.2.subscriptions := by
  induction l generalizing acc with
  | nil => rfl
  | cons s t ih =>
    rw [List.foldl_cons, ih]
    simp only [runStep]
    repeat' split
    all_goals rfl

theorem runFold_charges_mono (m : Ym) (dry : Bool) (l : List Subscription)
    (acc : Report × Db) (c : Nat × Ym) (hc : c ∈ acc.2.subscription_charges) :
    c ∈ ((l.foldl (runStep m dry) acc).2).subscription_charges := by
  induction l generalizing acc with
  | nil => exact hc
  | cons s t ih =>
    rw [List.foldl_cons]
    apply ih
    simp only [runStep]
    repeat' split
    any_goals exact hc
    exact List.mem_append_left _ hc

theorem runFold_marker_present (m : Ym) (l : List Subscription) (acc : Report × Db)
    (s : Subscription) (hs : s ∈ l) (hdue : dueOn m s = true) :
    (s.id, m) ∈ ((l.foldl (runStep m false) acc).2).subscription_charges := by
  induction l generalizing acc with
  | nil => cases hs
  | cons s0 t ih =>
    rw [List.foldl_cons]
    rcases List.mem_cons.mp hs with h | h
    · subst h
      apply runFold_charges_mono
      simp only [dueOn] at hdue
      simp only [runStep, hdue, Bool.not_true, Bool.false_eq_true, if_false]
      split
      · next hmem => exact hmem
      · exact List.mem_append_right _ (List.mem_singleton_self _)
    · exact ih _ h

theorem runFold_noop (m : Ym) (l : List Subscription) (acc : Report × Db)
    (h : ∀ s ∈ l, dueOn m s = true → (s.id, m) ∈ acc.2.subscription_charges) :
    l.foldl (runStep m false) acc =
      (⟨acc.1.eligible_subscriptions + (l.filter (fun s => dueOn m s)).length,
        acc.1.already_charged + (l.filter (fun s => dueOn m s)).length,
        acc.1.materialized⟩, acc.2) := by
  induction l generalizing acc with
  | nil => rfl
  | cons s0 t ih =>
    rw [List.foldl_cons]
    cases hd : dueOn m s0 with
    | false =>
      have hstep : runStep m false acc s0 = acc := by
        have hd' := hd
        simp only [dueOn] at hd'
        simp only [runStep, hd', Bool.not_false, if_true]
      rw [hstep, ih _ (fun s hs hd2 => h s (List.mem_cons_of_mem _ hs) hd2)]
      simp [List.filter_cons, hd]
    | true =>
      have hmem := h s0 (List.mem_cons_self _ _) hd
      have hstep : runStep m false acc s0 =
          (⟨acc.1.eligible_subscriptions + 1, acc.1.already_charged + 1,
            acc.1.materialized⟩, acc.2) := by
        have hd' := hd
        simp only [dueOn] at hd'
        simp only [runStep, hd', Bool.not_true, Bool.false_eq_true, if_false]
        rw [if_pos hmem]
      rw [hstep,
        ih (⟨⟨acc.1.eligible_subscriptions + 1, acc.1.already_charged + 1,
          acc.1.materialized⟩, acc.2⟩ : Report × Db)
          (fun s hs hd2 => h s (List.mem_cons_of_mem _ hs) hd2)]
      simp [List.filter_cons, hd]
      omega

/-- C1: materialization is idempotent per month: after one non-dry run of
the month's materialization, running it again materializes nothing, counts
every eligible subscription as already charged, and leaves the store — the
ledger entries and the charge markers — unchanged. -/
theorem materialization_idempotent (db : Db) (m : Ym) :
    (run_subscriptions (run_subscriptions db m false).2 m false).1.materialized = 0 ∧
    (run_subscriptions (run_subscriptions db m false).2 m false).1.already_charged
      = (run_subscriptions (run_subscriptions db m false).2 m false).1.eligible_subscriptions ∧
    (run_subscriptions (run_subscriptions db m false).2 m false).2
      = (run_subscriptions db m false).2 := by
  have hsubs : ((run_subscriptions db m false).2).subscriptions = db.subscriptions :=
    runFold_subscriptions m false _ _
  have hmark : ∀ s ∈ db.subscriptions.filter (fun s => s.active), dueOn m s = true →
      (s.id, m) ∈ ((run_subscriptions db m false).2).subscription_charges :=
    fun s hs hd => runFold_marker_present m _ _ s hs hd
  have h2 : run_subscriptions (run_subscriptions db m false).2 m false =
      (⟨0 + ((db.subscriptions.filter (fun s => s.active)).filter (fun s => dueOn m s)).length,
        0 + ((db.subscriptions.filter (fun s => s.active)).filter (fun s => dueOn m s)).length,
        0⟩, (run_subscriptions db m false).2) := by
    show ((run_subscriptions db m false).2.subscriptions.filter (fun s => s.active)).foldl
        (runStep m false) (⟨0, 0, 0⟩, (run_subscriptions db m false).2) = _
    rw [hsubs]
    exact runFold_noop m _ _ hmark
  rw [h2]
  exact ⟨rfl, rfl, rfl⟩

theorem runFold_counts (m : Ym) (dry : Bool) (l : List Subscription) (acc : Report × Db)
    (h : acc.1.eligible_subscriptions = acc.1.already_charged + acc.1.materialized) :
    ((l.foldl (runStep m dry) acc).1).eligible_subscriptions
      = ((l.foldl (runStep m dry) acc).1).already_charged
        + ((l.foldl (runStep m dry) acc).1).materialized := by
  induction l generalizing acc with
  | nil => exact h
  | cons s t ih =>
    rw [List.foldl_cons]
    apply ih
    simp only [runStep]
    repeat' split
    all_goals simp_all
    all_goals omega

/-- C10: every completed run of the API materialization endpoint (dry or
not) reports `eligible_subscriptions = already_charged + materialized`:
each due subscription is counted exactly once, as already charged or as
materialized. -/
theorem report_counts_consistent (db : Db) (m : Ym) (dryRun : Bool) :
    (run_subscriptions db m dryRun).1.eligible_subscriptions
      = (run_subscriptions db m dryRun).1.already_charged
        + (run_subscriptions db m dryRun).1.materialized :=
  runFold_counts m dryRun _ _ rfl

theorem runConc_no_interference (m : Ym) (dry : Bool) (l : List Subscription)
    (acc : Report × Db) :
    runConc m dry [] l acc = Except.ok (l.foldl (runStep m dry) acc) := by
  induction l generalizing acc with
  | nil => rfl
  | cons s t ih =>
    rw [List.foldl_cons]
    simp only [runConc, runStep, List.not_mem_nil, if_false]
    repeat' split
    all_goals exact ih _

/-- C5: a uniqueness violation on the charge-marker insert is NOT recovered
by the caller: `run_subscriptions` has no handler for it, so when a
concurrent writer has already committed the marker for (subscription 1,
month 2024-01) between the duplicate check and the insert, the run aborts
with the constraint-violation error instead of treating the period as
already charged. -/
theorem duplicate_marker_insert_errors :
    run_subscriptions_concurrent dbC5 ⟨2024, 1⟩ false [(1, ⟨2024, 1⟩)] =
      Except.error
        "UNIQUE constraint failed: subscription_charges.subscription_id, subscription_charges.charge_month" := by
  rfl

theorem rheInt_intCast (n : ℤ) : rheInt (n : ℚ) = n := by
  simp only [rheInt, Int.floor_intCast, sub_self]
  norm_num

theorem roundTo_eq_self (q : ℚ) (n : ℤ) (h : q * 100 = (n : ℚ)) : roundTo 100 q = q := by
  unfold roundTo
  have h100 : ((100 : ℤ) : ℚ) = 100 := by norm_num
  rw [h100, h, rheInt_intCast, div_eq_iff (by norm_num : (100 : ℚ) ≠ 0)]
  exact h.symm

/-- C3: for a nonnegative 2-decimal total and a positive count, the
installment split produces exactly `count` amounts, all but the last equal
to `round(total/count, 2)`, the last absorbing the rounding remainder
(`total - base*(count-1)`), and the amounts sum exactly to the total; in
particular `split(100.00, 3) = [33.33, 33.33, 33.34]` and
`split(10.00, 1) = [10.00]`. -/
theorem split_spec (total : ℚ) (count : ℕ) (n : ℤ)
    (_h0 : 0 ≤ total) (hc : 0 < count) (hn : total * 100 = (n : ℚ)) :
    (split total count).length = count ∧
    split total count =
      List.replicate (count - 1) (roundTo 100 (total / count))
        ++ [total - roundTo 100 (total / count) * ((count : ℚ) - 1)] ∧
    (split total count).sum = total ∧
    split 100 3 = [3333/100, 3333/100, 3334/100] ∧
    split 10 1 = [10] := by
  have hc' : ¬ count = 0 := by omega
  have h100 : ((100 : ℤ) : ℚ) = 100 := by norm_num
  have heach : roundTo 100 (total / count) * 100
      = ((rheInt (total / count * 100) : ℤ) : ℚ) := by
    unfold roundTo
    rw [h100]
    field_simp
  have hkey : roundTo 100 (total - roundTo 100 (total / count) * count)
      = total - roundTo 100 (total / count) * count := by
    apply roundTo_eq_self _ (n - rheInt (total / count * 100) * count)
    push_cast
    calc (total - roundTo 100 (total / count) * count) * 100
        = total * 100 - roundTo 100 (total / count) * 100 * count := by ring
      _ = (n : ℚ) - (rheInt (total / count * 100) : ℚ) * count := by
          rw [hn, heach]
  have hlast : roundTo 100 (total / count)
        + (total - roundTo 100 (total / count) * count)
      = total - roundTo 100 (total / count) * ((count : ℚ) - 1) := by
    ring
  refine ⟨?_, ?_, ?_, ?_, ?_⟩
  · simp only [split, hc', if_false, List.length_append, List.length_replicate,
      List.length_cons, List.length_nil]
    omega
  · simp only [split, hc', if_false]
    rw [hkey, hlast]
  · simp only [split, hc', if_false]
    rw [hkey, List.sum_append, List.sum_replicate, List.sum_cons, List.sum_nil, nsmul_eq_mul,
      Nat.cast_sub (by omega : 1 ≤ count), Nat.cast_one]
    ring
  · norm_num [split, roundTo, rheInt, List.replicate]
  · norm_num [split, roundTo, rheInt, List.replicate]

/-- Witness for `split_spec`: the split of 100.00 into 3 installments. -/
theorem split_spec_witness :
    (0 ≤ (100 : ℚ) ∧ 0 < 3 ∧ (100 : ℚ) * 100 = ((10000 : ℤ) : ℚ)) ∧
    ((split 100 3).length = 3 ∧
     split (100 : ℚ) (3 : ℕ) =
       List.replicate ((3 : ℕ) - 1) (roundTo 100 ((100 : ℚ) / ((3 : ℕ) : ℚ)))
         ++ [(100 : ℚ) - roundTo 100 ((100 : ℚ) / ((3 : ℕ) : ℚ)) * (((3 : ℕ) : ℚ) - 1)] ∧
     (split (100 : ℚ) 3).sum = 100 ∧
     split 100 3 = [3333/100, 3333/100, 3334/100] ∧
     split 10 1 = [10]) :=
  ⟨⟨by norm_num, by norm_num, by norm_num⟩,
    split_spec 100 3 10000 (by norm_num) (by norm_num) (by norm_num)⟩

theorem lookupD_bump (acc : List (String × ℚ)) (c cat : String) (v : ℚ) :
    lookupD (bump acc c v) cat 0
      = lookupD acc cat 0 + (if c = cat then v else 0) := by
  induction acc with
  | nil =>
    simp only [bump, lookupD]
    split_ifs with h <;> simp
  | cons p rest ih =>
    obtain ⟨c', v'⟩ := p
    by_cases h1 : c' = c
    · simp only [bump, if_pos h1, lookupD]
      by_cases h2 : c' = cat
      · have hc : c = cat := h1 ▸ h2
        simp [h2, hc]
      · have hc : ¬ c = cat := fun hcc => h2 (h1.trans hcc)
        simp [h2, hc]
    · simp only [bump, if_neg h1, lookupD]
      by_cases h2 : c' = cat
      · have hc : ¬ c = cat := fun hcc => h1 (h2.trans hcc.symm)
        simp [h2, hc]
      · simp only [if_neg h2]
        exact ih

theorem lookupD_category_totals (rows : List Expense) (cat : String) :
    lookupD (category_totals rows) cat 0
      = ((rows.filter (fun e => e.category = cat)).map (fun e => e.amount)).sum := by
  suffices h : ∀ acc, lookupD (rows.foldl (fun acc r => bump acc r.category r.amount) acc) cat 0
      = lookupD acc cat 0
        + ((rows.filter (fun e => e.category = cat)).map (fun e => e.amount)).sum by
    simpa [lookupD, category_totals] using h []
  induction rows with
  | nil => intro acc; simp
  | cons r t ih =>
    intro acc
    rw [List.foldl_cons, ih (bump acc r.category r.amount), lookupD_bump]
    by_cases h : r.category = cat
    · simp [List.filter_cons, h]
      ring
    · simp [List.filter_cons, h]

/-- C6 counterexample: with a budget of 3 and a spend of 1 the endpoint
reports pct = 33.3 — the capped percentage rounded to one decimal — which
differs from the claim's exact `min(spent/budgeted*100, 100) = 100/3`. -/
theorem budget_pct_rounded_cx :
    (budgets_endpoint dbPctThird ⟨2024, 1⟩).map BudgetRow.pct = [333/10] ∧
    ¬ ((333 : ℚ)/10 = min ((1 : ℚ) / 3 * 100) 100) := by
  constructor
  · norm_num [budgets_endpoint, monthExpenseRows, category_totals, bump, lookupD,
      inWindow, parse_month, Date.le, daysInMonth, isLeap, dbPctThird, roundTo, rheInt,
      List.insertionSort, List.orderedInsert, List.filter, min_def]
  · rw [min_def]
    norm_num

/-- C6 amended: the endpoint's rows are, as a set, one row per budgeted
category with `spent` the month's expense total of the category,
`remaining = budgeted - spent`, and
`pct = round(min(spent/budgeted*100, 100), 1)` when `budgeted > 0` and `0`
when `budgeted = 0` (no division error); the returned list is sorted by
`pct` descending; in particular budgeted=0, spent=50 gives pct=0 and
budgeted=100, spent=150 gives pct=100. -/
theorem budget_status_spec (db : Db) (m : Ym) :
    List.Sorted (fun x y => y.pct ≤ x.pct) (budgets_endpoint db m) ∧
    (budgets_endpoint db m).Perm
      (db.budgets.map (fun b =>
        { category := b.1, budgeted := b.2, spent := spentOn db m b.1,
          remaining := b.2 - spentOn db m b.1,
          pct := roundTo 10 (if b.2 > (0 : ℚ) then min (spentOn db m b.1 / b.2 * 100) 100 else 0)
          : BudgetRow })) ∧
    (budgets_endpoint dbPctZero ⟨2024, 1⟩).map BudgetRow.pct = [0] ∧
    (budgets_endpoint dbPctCap ⟨2024, 1⟩).map BudgetRow.pct = [100] := by
  refine ⟨?_, ?_, ?_, ?_⟩
  · exact List.sorted_insertionSort _ _
  · refine (List.perm_insertionSort _ _).trans (List.Perm.of_eq ?_)
    apply List.map_congr_left
    intro b _
    have hs := lookupD_category_totals (monthExpenseRows db m) b.1
    simp only [spentOn, hs]
  · norm_num [budgets_endpoint, monthExpenseRows, category_totals, bump, lookupD,
      inWindow, parse_month, Date.le, daysInMonth, isLeap, dbPctZero, roundTo, rheInt,
      List.insertionSort, List.orderedInsert, List.filter, min_def]
  · norm_num [budgets_endpoint, monthExpenseRows, category_totals, bump, lookupD,
      inWindow, parse_month, Date.le, daysInMonth, isLeap, dbPctCap, roundTo, rheInt,
      List.insertionSort, List.orderedInsert, List.filter, min_def]

theorem Date.le_rfl' (a : Date) : Date.le a a := by
  simp [Date.le]

theorem Date.le_trans' (a b c : Date) (h1 : Date.le a b) (h2 : Date.le b c) :
    Date.le a c := by
  simp only [Date.le] at *
  omega

theorem dateMax_left (a b : Date) : Date.le a (dateMax a b) := by
  unfold dateMax
  split
  · assumption
  · exact Date.le_rfl' a

theorem dateMax_right (a b : Date) : Date.le b (dateMax a b) := by
  unfold dateMax
  split
  · exact Date.le_rfl' b
  · next h =>
    simp only [Date.le, Date.lt] at *
    omega

theorem foldl_dateMax_le (l : List Date) (a : Date) :
    Date.le a (l.foldl dateMax a) ∧ ∀ d ∈ l, Date.le d (l.foldl dateMax a) := by
  induction l generalizing a with
  | nil => exact ⟨Date.le_rfl' a, by simp⟩
  | cons x t ih =>
    obtain ⟨h1, h2⟩ := ih (dateMax a x)
    refine ⟨Date.le_trans' _ _ _ (dateMax_left a x) h1, ?_⟩
    intro d hd
    rcases List.mem_cons.mp hd with rfl | hd
    · exact Date.le_trans' _ _ _ (dateMax_right a d) h1
    · exact h2 d hd

theorem foldl_dateMax_mem (l : List Date) (a : Date) :
    l.foldl dateMax a = a ∨ l.foldl dateMax a ∈ l := by
  induction l generalizing a with
  | nil => exact Or.inl rfl
  | cons x t ih =>
    rw [List.foldl_cons]
    rcases ih (dateMax a x) with h | h
    · rw [h]
      unfold dateMax
      split
      · exact Or.inr (List.mem_cons_self _ _)
      · exact Or.inl rfl
    · exact Or.inr (List.mem_cons_of_mem _ h)

theorem latestDate_spec (db : Db) (dmax : Date) (hd : latestDate db = some dmax) :
    dmax ∈ dataDates db ∧ ∀ d ∈ dataDates db, Date.le d dmax := by
  unfold latestDate at hd
  cases hdd : dataDates db with
  | nil => rw [hdd] at hd; cases hd
  | cons d rest =>
    rw [hdd] at hd
    have hfold : rest.foldl dateMax d = dmax := by
      injection hd
    constructor
    · rcases foldl_dateMax_mem rest d with h | h
      · rw [← hfold, h]
        exact List.mem_cons_self _ _
      · rw [← hfold]
        exact List.mem_cons_of_mem _ h
    · intro x hx
      rw [← hfold]
      rcases List.mem_cons.mp hx with rfl | hx
      · exact (foldl_dateMax_le rest x).1
      · exact (foldl_dateMax_le rest d).2 x hx

theorem trends_month_keys (db : Db) (n : Nat) (today : Ym) :
    (trends db n today).map (fun e => ymIndex e.month)
      = (List.range n).map (fun (j : ℕ) =>
          ymIndex (latest_data_month db today) + (j : Int) + 1 - (n : Int)) := by
  unfold trends
  rw [List.map_map, List.range_eq_range', List.reverse_range', List.map_map,
    ← List.range_eq_range']
  apply List.map_congr_left
  intro j hj
  have hj' : j < n := List.mem_range.mp hj
  simp only [Function.comp, trendRow, ymIndex, monthIndex, shift_month]
  omega

/-- C7: when the store holds any ledger data, `trends(n)` produces `n`
summaries of consecutive months, oldest first (month indices increase by one
up to the last), whose last month is the month of the maximum stored
expense/income date; the result does not depend on the calendar month of the
current date, and each summary is the per-month summary of its month. -/
theorem trends_spec (db : Db) (n : Nat) (today today2 : Ym) (dmax : Date)
    (hd : latestDate db = some dmax) :
    (trends db n today).map (fun e => ymIndex e.month)
      = (List.range n).map (fun (j : ℕ) =>
          ymIndex ⟨dmax.year, dmax.month⟩ + (j : Int) + 1 - (n : Int)) ∧
    trends db n today = trends db n today2 ∧
    dmax ∈ dataDates db ∧
    (∀ d ∈ dataDates db, Date.le d dmax) ∧
    (∀ e ∈ trends db n today, e = trendRow db e.month) := by
  have hanchor : latest_data_month db today = ⟨dmax.year, dmax.month⟩ := by
    unfold latest_data_month
    rw [hd]
  have hanchor2 : latest_data_month db today2 = ⟨dmax.year, dmax.month⟩ := by
    unfold latest_data_month
    rw [hd]
  obtain ⟨hmem, hub⟩ := latestDate_spec db dmax hd
  refine ⟨?_, ?_, hmem, hub, ?_⟩
  · rw [trends_month_keys, hanchor]
  · unfold trends
    rw [hanchor, hanchor2]
  · intro e he
    unfold trends at he
    obtain ⟨i, _, rfl⟩ := List.mem_map.mp he
    rfl

/-- Witness for `trends_spec`: a store with one expense in 2024-03 and one
income in 2024-01, three trend months, and two unrelated "today" values. -/
theorem trends_spec_witness :
    latestDate dbTrend = some ⟨2024, 3, 15⟩ ∧
    ((trends dbTrend 3 ⟨2030, 1⟩).map (fun e => ymIndex e.month)
        = (List.range 3).map (fun (j : ℕ) =>
            ymIndex ⟨(2024 : Int), (3 : Int)⟩ + (j : Int) + 1 - ((3 : ℕ) : Int)) ∧
     trends dbTrend 3 ⟨2030, 1⟩ = trends dbTrend 3 ⟨1999, 5⟩ ∧
     (⟨2024, 3, 15⟩ : Date) ∈ dataDates dbTrend ∧
     (∀ d ∈ dataDates dbTrend, Date.le d ⟨2024, 3, 15⟩) ∧
     (∀ e ∈ trends dbTrend 3 ⟨2030, 1⟩, e = trendRow dbTrend e.month)) :=
  ⟨by decide, trends_spec dbTrend 3 ⟨2030, 1⟩ ⟨1999, 5⟩ ⟨2024, 3, 15⟩ (by decide)⟩

theorem lookupHist_bumpHist (acc : List (String × List ℚ)) (c cat : String) (v : ℚ) :
    lookupHist (bumpHist acc c v) cat
      = lookupHist acc cat ++ (if c = cat then [v] else []) := by
  induction acc with
  | nil =>
    simp only [bumpHist, lookupHist]
    split_ifs with h <;> simp [h]
  | cons p rest ih =>
    obtain ⟨c', v'⟩ := p
    by_cases h1 : c' = c
    · simp only [bumpHist, if_pos h1, lookupHist]
      by_cases h2 : c' = cat
      · have hc : c = cat := h1 ▸ h2
        simp [h2, hc]
      · have hc : ¬ c = cat := fun hcc => h2 (h1.trans hcc)
        simp [h2, hc]
    · simp only [bumpHist, if_neg h1, lookupHist]
      by_cases h2 : c' = cat
      · have hc : ¬ c = cat := fun hcc => h1 (h2.trans hcc.symm)
        simp [h2, hc]
      · simp only [if_neg h2]
        exact ih

theorem lookupOpt_eq_none (l : List (String × ℚ)) (cat : String)
    (h : cat ∉ l.map Prod.fst) : lookupOpt l cat = none := by
  induction l with
  | nil => rfl
  | cons p rest ih =>
    obtain ⟨c, v⟩ := p
    simp only [List.map_cons, List.mem_cons] at h
    push_neg at h
    simp only [lookupOpt, if_neg (fun hc : c = cat => h.1 hc.symm)]
    exact ih h.2

theorem bump_keys (acc : List (String × ℚ)) (c : String) (v : ℚ) :
    (bump acc c v).map Prod.fst
      = if c ∈ acc.map Prod.fst then acc.map Prod.fst
        else acc.map Prod.fst ++ [c] := by
  induction acc with
  | nil => simp [bump]
  | cons p rest ih =>
    obtain ⟨c', v'⟩ := p
    by_cases h1 : c' = c
    · subst h1
      simp [bump]
    · simp only [bump, if_neg h1, List.map_cons, ih]
      by_cases h2 : c ∈ rest.map Prod.fst
      · simp [h2, List.mem_cons]
      · have hc : ¬ (c = c' ∨ c ∈ rest.map Prod.fst) := by
          rintro (rfl | hm)
          · exact h1 rfl
          · exact h2 hm
        simp [List.mem_cons, h2, hc]
        rw [if_neg (fun hcc : c = c' => h1 hcc.symm)]

theorem bump_keys_nodup (acc : List (String × ℚ)) (c : String) (v : ℚ)
    (h : (acc.map Prod.fst).Nodup) : ((bump acc c v).map Prod.fst).Nodup := by
  rw [bump_keys]
  split_ifs with hmem
  · exact h
  · rw [List.nodup_append]
    refine ⟨h, List.nodup_singleton c, fun a ha hb => ?_⟩
    rw [List.mem_singleton] at hb
    subst hb
    exact hmem ha

theorem category_totals_keys_nodup (rows : List Expense) :
    ((category_totals rows).map Prod.fst).Nodup := by
  suffices h : ∀ acc : List (String × ℚ), (acc.map Prod.fst).Nodup →
      ((rows.foldl (fun acc r => bump acc r.category r.amount) acc).map Prod.fst).Nodup from
    h [] (by simp)
  induction rows with
  | nil => exact fun acc h => h
  | cons r t ih =>
    intro acc h
    rw [List.foldl_cons]
    exact ih _ (bump_keys_nodup _ _ _ h)

theorem lookupHist_addMonth (pt : List (String × ℚ)) (acc : List (String × List ℚ))
    (cat : String) (hnd : (pt.map Prod.fst).Nodup) :
    lookupHist (pt.foldl (fun a p => bumpHist a p.1 p.2) acc) cat
      = lookupHist acc cat
        ++ (match lookupOpt pt cat with
            | some v => [v]
            | none => []) := by
  induction pt generalizing acc with
  | nil => simp [lookupOpt]
  | cons p rest ih =>
    obtain ⟨c, v⟩ := p
    simp only [List.map_cons, List.nodup_cons] at hnd
    rw [List.foldl_cons, ih _ hnd.2, lookupHist_bumpHist]
    by_cases h : c = cat
    · subst h
      rw [lookupOpt_eq_none rest c hnd.1]
      simp [lookupOpt]
    · simp [lookupOpt, h]

theorem lookupHist_prevTotals (db : Db) (month : MonthWindow) (cat : String) :
    lookupHist (prevTotals db month) cat = histOf db month cat := by
  unfold prevTotals histOf
  suffices h : ∀ (keys : List Ym) (acc : List (String × List ℚ)),
      lookupHist (keys.foldl (fun acc mk =>
        (category_totals (monthExpenseRows db mk)).foldl
          (fun a p => bumpHist a p.1 p.2) acc) acc) cat
      = lookupHist acc cat
        ++ keys.filterMap
            (fun mk => lookupOpt (category_totals (monthExpenseRows db mk)) cat) from
    by simpa [lookupHist] using h (last_n_month_keys month 3) []
  intro keys
  induction keys with
  | nil => intro acc; simp
  | cons mk rest ih =>
    intro acc
    rw [List.foldl_cons, ih, lookupHist_addMonth _ _ _ (category_totals_keys_nodup _),
      List.filterMap_cons]
    cases lookupOpt (category_totals (monthExpenseRows db mk)) cat with
    | none => simp
    | some v => simp

/-- C8 counterexample: category "A" spent 100 in 2024-03 against 90, 0, 0 in
the three previous months.  Its trailing 3-month average is 30, and
100 > 30 * 1.3, so the claim says it must be flagged — but the source
averages only over the months in which the category had expense rows
(avg = 90, and 100 ≤ 117), so it flags nothing. -/
theorem spikes_average_divisor_cx :
    report_savings_spikes dbC8 ⟨2024, 3⟩ = [] ∧
    ((100 : ℚ) > ((90 + 0 + 0) / 3) * (13/10)) := by
  constructor
  · norm_num [report_savings_spikes, prevTotals, last_n_month_keys, monthExpenseRows,
      category_totals, bump, bumpHist, lookupHist, inWindow, parse_month, Date.le,
      daysInMonth, isLeap, shift_month, dbC8, List.insertionSort, List.orderedInsert,
      List.filter, List.filterMap, List.range]
  · norm_num

/-- C8 amended: spike detection flags exactly those current-month categories
whose total exceeds 1.3 times the average over those of the trailing three
months in which the category had expense rows (categories with no such month
or non-positive average are skipped), reports `current - avg` as the
magnitude, and sorts the flags by that magnitude descending. -/
theorem spikes_spec (db : Db) (m : Ym) :
    report_savings_spikes db m
      = List.insertionSort (fun x y => y.diff ≤ x.diff)
          ((category_totals (monthExpenseRows db m)).filterMap (fun p =>
            let hist := histOf db (parse_month m) p.1
            if hist = [] then none
            else
              let avg := hist.sum / (hist.length : ℚ)
              if avg ≤ 0 then none
              else if p.2 > avg * (13/10) then some ⟨p.1, p.2, avg, p.2 - avg⟩
              else none)) ∧
    List.Sorted (fun x y => y.diff ≤ x.diff) (report_savings_spikes db m) ∧
    (∀ x ∈ report_savings_spikes db m,
      0 < x.avg ∧ x.current > x.avg * (13/10) ∧ x.diff = x.current - x.avg) := by
  refine ⟨?_, ?_, ?_⟩
  · simp only [report_savings_spikes]
    congr 1
    congr 1
    funext p
    rw [lookupHist_prevTotals]
  · exact List.sorted_insertionSort _ _
  · intro x hx
    simp only [report_savings_spikes] at hx
    rw [List.Perm.mem_iff (List.perm_insertionSort _ _)] at hx
    obtain ⟨p, _, hfx⟩ := List.mem_filterMap.mp hx
    split_ifs at hfx with h1 h2 h3
    injection hfx with h4
    subst h4
    exact ⟨lt_of_not_le h2, h3, rfl⟩

theorem report_trends_month_keys (db : Db) (n : Nat) (today : Date) :
    (report_trends db n today).map (fun e => ymIndex e.month)
      = (List.range n).map (fun (j : ℕ) =>
          ymIndex ⟨today.year, today.month⟩ + (j : Int) + 1 - (n : Int)) := by
  unfold report_trends
  rw [List.map_map, List.range_eq_range', List.reverse_range', List.map_map,
    ← List.range_eq_range']
  apply List.map_congr_left
  intro j hj
  have hj' : j < n := List.mem_range.mp hj
  simp only [Function.comp, cliTrendRow, ymIndex, monthIndex, shift_month]
  omega

/-- C7 counterexample: the CLI's `report_trends` — one of the claim's cited
implementations — anchors at the calendar month of the current date, not at
the most recent month containing ledger data: with no stored date newer than
2024-03-15 and the current date 2025-06-09, the last produced month is
2025-06, not 2024-03. -/
theorem report_trends_today_anchored_cx :
    ((report_trends dbTrend 3 ⟨2025, 6, 9⟩).map (fun e => e.month)).getLast?
      = some ⟨2025, 6⟩ ∧
    latestDate dbTrend = some ⟨2024, 3, 15⟩ ∧
    (⟨2025, 6⟩ : Ym) ≠ ⟨2024, 3⟩ := by
  refine ⟨by decide, by decide, by decide⟩

/-- C7 amended: when the store holds any ledger data, the API's `trends(n)`
produces `n` summaries of consecutive months, oldest first, whose last month
is the month of the maximum stored expense/income date — independent of the
calendar month of the current date — each summary being the per-month
summary of its month; the CLI's `report_trends(n)` also produces `n`
consecutive per-month summaries, oldest first, but anchors their last month
at the calendar month of the current date instead of at the data. -/
theorem trends_anchoring_spec (db : Db) (n : Nat) (today today2 : Ym)
    (cliToday : Date) (dmax : Date) (hd : latestDate db = some dmax) :
    ((trends db n today).map (fun e => ymIndex e.month)
        = (List.range n).map (fun (j : ℕ) =>
            ymIndex ⟨dmax.year, dmax.month⟩ + (j : Int) + 1 - (n : Int)) ∧
      trends db n today = trends db n today2 ∧
      dmax ∈ dataDates db ∧
      (∀ d ∈ dataDates db, Date.le d dmax) ∧
      (∀ e ∈ trends db n today, e = trendRow db e.month)) ∧
    ((report_trends db n cliToday).map (fun e => ymIndex e.month)
        = (List.range n).map (fun (j : ℕ) =>
            ymIndex ⟨cliToday.year, cliToday.month⟩ + (j : Int) + 1 - (n : Int)) ∧
      (∀ e ∈ report_trends db n cliToday, e = cliTrendRow db e.month)) := by
  refine ⟨trends_spec db n today today2 dmax hd, report_trends_month_keys db n cliToday, ?_⟩
  intro e he
  unfold report_trends at he
  obtain ⟨i, _, rfl⟩ := List.mem_map.mp he
  rfl

/-- Witness for `trends_anchoring_spec`: the store with one expense in
2024-03 and one income in 2024-01, three trend months, two unrelated API
"today" values, and a CLI current date 2025-06-09. -/
theorem trends_anchoring_spec_witness :
    latestDate dbTrend = some ⟨2024, 3, 15⟩ ∧
    (((trends dbTrend 3 ⟨2030, 1⟩).map (fun e => ymIndex e.month)
        = (List.range 3).map (fun (j : ℕ) =>
            ymIndex ⟨(2024 : Int), (3 : Int)⟩ + (j : Int) + 1 - ((3 : ℕ) : Int)) ∧
      trends dbTrend 3 ⟨2030, 1⟩ = trends dbTrend 3 ⟨1999, 5⟩ ∧
      (⟨2024, 3, 15⟩ : Date) ∈ dataDates dbTrend ∧
      (∀ d ∈ dataDates dbTrend, Date.le d ⟨2024, 3, 15⟩) ∧
      (∀ e ∈ trends dbTrend 3 ⟨2030, 1⟩, e = trendRow dbTrend e.month)) ∧
     ((report_trends dbTrend 3 ⟨2025, 6, 9⟩).map (fun e => ymIndex e.month)
        = (List.range 3).map (fun (j : ℕ) =>
            ymIndex ⟨(2025 : Int), (6 : Int)⟩ + (j : Int) + 1 - ((3 : ℕ) : Int)) ∧
      (∀ e ∈ report_trends dbTrend 3 ⟨2025, 6, 9⟩, e = cliTrendRow dbTrend e.month))) :=
  ⟨by decide,
    trends_anchoring_spec dbTrend 3 ⟨2030, 1⟩ ⟨1999, 5⟩ ⟨2025, 6, 9⟩ ⟨2024, 3, 15⟩ (by decide)⟩
